import Mathlib

/-!
Shallow embedding of `nanobot/channels/feishu_markdown.py`
(`FeishuMarkdownConverter`), the markdown-token-stream → Feishu-post
converter, together with theorems settling the specification claims.

Modelling conventions:
  * A Python `markdown_it` token is `Token` (block level) with a flat list
    of inline child tokens `ITok`; `children = []` models both Python `None`
    and the empty list (the code only ever tests truthiness of `children`).
  * Output dicts become the `Elem` structure; absent dict keys are the
    field defaults (the code only reads absent keys through `.get` with the
    same defaults).
  * A Python function that can raise (out-of-range indexing) returns
    `Option`; `none` models an uncaught exception, `some` a normal return.
  * `while` loops with a cursor are structural recursions on an explicit
    fuel; the top-level wrappers pass fuel exceeding the loop's iteration
    count (the cursor strictly increases each iteration and is bounded by
    the list length), so fuel exhaustion is unreachable.
-/

namespace Nanobot

/-- An inline child token (element of an inline container's `children`). -/
structure ITok where
  type : String
  content : String := ""
  attrs : List (String × String) := []
deriving Repr, DecidableEq

/-- A block-level token of the flat markdown-it token stream. -/
structure Token where
  type : String
  tag : String := ""
  content : String := ""
  info : String := ""
  attrs : List (String × String) := []
  children : List ITok := []
deriving Repr, DecidableEq

/-- An output element of a Feishu post line (a dict in the Python source;
absent keys are the defaults the code reads back via `.get`). -/
structure Elem where
  tag : String
  text : String := ""
  style : Option (List String) := none
  href : String := ""
  language : String := ""
deriving Repr, DecidableEq

/-- One visual output line: an ordered list of elements. -/
abbrev Line := List Elem

/-- Models `markdown_it.Token.attrGet`: first value stored under the key, if any. -/
def attrGet (t : ITok) (k : String) : Option String :=
  (t.attrs.find? (fun p => p.1 == k)).map (fun p => p.2)

/-- Python `a or b` on strings: the empty string is falsy. -/
def pyOrStr (a b : String) : String :=
  if a = "" then b else a

/-- Python `o or b` where `o` is a string or `None` (`None` is falsy). -/
def pyOrStrOpt (o : Option String) (b : String) : String :=
  match o with
  | none => b
  | some s => pyOrStr s b

/-- Python `s.rstrip("\n")`: remove every trailing newline character. -/
def pyRstripNl (s : String) : String :=
  String.mk ((s.toList.reverse.dropWhile (fun c => c == '\x0a')).reverse)

/-- The element used whenever the code falls back to one empty text. -/
def emptyTextElem : Elem := { tag := "text", text := "" }

/-- Models `int(tag[1])` in `_process_heading`: second character of the tag,
read as a digit; `none` models the raised `IndexError`/`ValueError`. -/
def headingLevel (tag : String) : Option Nat :=
  match tag.toList.get? 1 with
  | none => none
  | some c => if c.isDigit then some (c.toNat - 48) else none

/-- The scanning loop of `_process_styled`: walk tokens until one whose
type is `closeType` (or the end), concatenating the content of `text` and
`code_inline` leaves; also counts the tokens examined before stopping. -/
def styledScan (closeType : String) : List ITok → String × Nat
  | [] => ("", 0)
  | c :: rest =>
    if c.type = closeType then ("", 0)
    else
      let r := styledScan closeType rest
      ((if c.type = "text" ∨ c.type = "code_inline" then c.content else "") ++ r.1, r.2 + 1)

/-- Embeds `FeishuMarkdownConverter._process_styled`. -/
def processStyled (children : List ITok) (start : Nat) (tagType : String)
    (styles : List String) : Nat × Elem :=
  let r := styledScan (tagType ++ "_close") (children.drop (start + 1))
  (start + 1 + r.2 + 1, { tag := "text", text := r.1, style := some styles })

/-- The scanning loop of `_process_link`: walk tokens until a `link_close`
(or the end), concatenating the content of `text` leaves. -/
def linkScan : List ITok → String × Nat
  | [] => ("", 0)
  | c :: rest =>
    if c.type = "link_close" then ("", 0)
    else
      let r := linkScan rest
      ((if c.type = "text" then c.content else "") ++ r.1, r.2 + 1)

/-- Body of `_process_link`, given the already-fetched open token. -/
def processLinkCore (linkOpen : ITok) (children : List ITok) (start : Nat) : Nat × Elem :=
  let href := pyOrStrOpt (attrGet linkOpen "href") ""
  let r := linkScan (children.drop (start + 1))
  (start + 1 + r.2 + 1, { tag := "a", text := pyOrStr r.1 href, href := href })

/-- Embeds `FeishuMarkdownConverter._process_link`; `none` models the
`IndexError` when `start` is out of range. -/
def processLink (children : List ITok) (start : Nat) : Option (Nat × Elem) :=
  (children.get? start).map (fun t => processLinkCore t children start)

/-- The `while` loop of `_process_inline` over the children list. -/
def processInlineAux (children : List ITok) : Nat → Nat → List Elem
  | _, 0 => []
  | i, fuel + 1 =>
    match children.get? i with
    | none => []
    | some child =>
      if child.type = "text" then
        { tag := "text", text := child.content } :: processInlineAux children (i + 1) fuel
      else if child.type = "code_inline" then
        { tag := "text", text := child.content, style := some ["code"] } ::
          processInlineAux children (i + 1) fuel
      else if child.type = "strong_open" then
        let r := processStyled children i "strong" ["bold"]
        r.2 :: processInlineAux children r.1 fuel
      else if child.type = "em_open" then
        let r := processStyled children i "em" ["italic"]
        r.2 :: processInlineAux children r.1 fuel
      else if child.type = "s_open" then
        let r := processStyled children i "s" ["lineThrough"]
        r.2 :: processInlineAux children r.1 fuel
      else if child.type = "link_open" then
        let r := processLinkCore child children i
        r.2 :: processInlineAux children r.1 fuel
      else if child.type = "softbreak" ∨ child.type = "hardbreak" then
        { tag := "text", text := "\x0a" } :: processInlineAux children (i + 1) fuel
      else
        processInlineAux children (i + 1) fuel

/-- Embeds `FeishuMarkdownConverter._process_inline`. -/
def processInline (tok : Token) : List Elem :=
  if tok.children = [] then [emptyTextElem]
  else
    let elements := processInlineAux tok.children 0 (tok.children.length + 1)
    if elements = [] then [emptyTextElem] else elements

/-- The heading bold pass: `elem["style"] = elem.get("style", []) + ["bold"]`
for `text`-tagged elements. -/
def boldify (e : Elem) : Elem :=
  if e.tag = "text" then { e with style := some (e.style.getD [] ++ ["bold"]) } else e

/-- Embeds `FeishuMarkdownConverter._process_heading`; `none` models the raised
exceptions on out-of-range access or an unparsable heading tag. -/
def processHeading (tokens : List Token) (start : Nat) : Option (Nat × Line) :=
  match tokens.get? start with
  | none => none
  | some headingOpen =>
    match headingLevel headingOpen.tag with
    | none => none
    | some _level =>
      match tokens.get? (start + 1) with
      | none => none
      | some inlineTok =>
        some (start + 3, (processInline inlineTok).map boldify)

/-- Python-style split of a character list on the newline character:
mirrors `text.split("\n")` (always at least one part, empty parts kept). -/
def splitCharsNl : List Char → List (List Char)
  | [] => [[]]
  | c :: rest =>
    let r := splitCharsNl rest
    if c = '\x0a' then [] :: r
    else
      match r with
      | [] => [[c]]
      | h :: t => (c :: h) :: t

/-- Python `text.split("\n")` on strings. -/
def pySplitNl (s : String) : List String :=
  (splitCharsNl s.toList).map String.mk

/-- The inner `enumerate(parts)` loop of `_process_paragraph`: given the
split parts and the current line buffer, yield the flushed lines and the
new buffer. -/
def splitParts (e : Elem) : List String → List Elem → List Line × List Elem
  | [], current => ([], current)
  | [last], current =>
      ([], if last ≠ "" then current ++ [{ e with text := last }] else current)
  | part :: rest :: more, current =>
      let current1 := if part ≠ "" then current ++ [{ e with text := part }] else current
      let flushed := if current1 ≠ [] then [current1] else []
      let r := splitParts e (rest :: more) []
      (flushed ++ r.1, r.2)

/-- The re-flow loop of `_process_paragraph` over the element list,
threading the accumulated lines and the current line buffer. -/
def reflowAux : List Elem → List Line → List Elem → List Line × List Elem
  | [], lines, current => (lines, current)
  | e :: rest, lines, current =>
    if e.tag = "text" ∧ e.text.toList.contains '\x0a' then
      let r := splitParts e (pySplitNl e.text) current
      reflowAux rest (lines ++ r.1) r.2
    else
      reflowAux rest lines (current ++ [e])

/-- Embeds `FeishuMarkdownConverter._process_paragraph`; `none` models the
`IndexError` when the inline container is missing. -/
def processParagraph (tokens : List Token) (start : Nat) : Option (Nat × List Line) :=
  match tokens.get? (start + 1) with
  | none => none
  | some inlineTok =>
    let elements := processInline inlineTok
    let r := reflowAux elements [] []
    let lines := if r.2 ≠ [] then r.1 ++ [r.2] else r.1
    let lines := if lines = [] then [[emptyTextElem]] else lines
    some (start + 3, lines)

/-- The prefix attachment of `_process_list_item`: prepend to the first
`text` element, else insert a fresh `text` element at the front. -/
def addPrefix (pre : String) (elements : List Elem) : List Elem :=
  match elements with
  | e :: rest =>
    if e.tag = "text" then { e with text := pre ++ e.text } :: rest
    else { tag := "text", text := pre } :: e :: rest
  | [] => [{ tag := "text", text := pre }]

/-- The `while` loop of `_process_list_item`; `none` models the
`IndexError` when a `paragraph_open` is the final token. -/
def processListItemAux (tokens : List Token) (ordered : Bool) (itemNum : Nat) :
    Nat → Nat → Option (Nat × List Line)
  | _, 0 => none
  | i, fuel + 1 =>
    match tokens.get? i with
    | none => some (i + 1, [])
    | some t =>
      if t.type = "list_item_close" then some (i + 1, [])
      else if t.type = "paragraph_open" then
        match tokens.get? (i + 1) with
        | none => none
        | some inlineTok =>
          let elements := processInline inlineTok
          let pre := if ordered then toString itemNum ++ ". " else "• "
          let line := addPrefix pre elements
          match processListItemAux tokens ordered itemNum (i + 3) fuel with
          | none => none
          | some r => some (r.1, line :: r.2)
      else
        processListItemAux tokens ordered itemNum (i + 1) fuel

/-- Embeds `FeishuMarkdownConverter._process_list_item`. -/
def processListItem (tokens : List Token) (start : Nat) (ordered : Bool)
    (itemNum : Nat) : Option (Nat × List Line) :=
  processListItemAux tokens ordered itemNum (start + 1) (tokens.length + 2)

/-- The `while` loop of `_process_list`. -/
def processListAux (tokens : List Token) (ordered : Bool) (closeType : String) :
    Nat → Nat → Nat → Option (Nat × List Line)
  | _, _, 0 => none
  | i, itemNum, fuel + 1 =>
    match tokens.get? i with
    | none => some (i + 1, [])
    | some t =>
      if t.type = closeType then some (i + 1, [])
      else if t.type = "list_item_open" then
        match processListItem tokens i ordered itemNum with
        | none => none
        | some r =>
          match processListAux tokens ordered closeType r.1 (itemNum + 1) fuel with
          | none => none
          | some rr => some (rr.1, r.2 ++ rr.2)
      else
        processListAux tokens ordered closeType (i + 1) itemNum fuel

/-- Embeds `FeishuMarkdownConverter._process_list`. -/
def processList (tokens : List Token) (start : Nat) (ordered : Bool) :
    Option (Nat × List Line) :=
  let closeType := if ordered then "ordered_list_close" else "bullet_list_close"
  processListAux tokens ordered closeType (start + 1) 1 (tokens.length + 2)

/-- Embeds `FeishuMarkdownConverter._process_code_block`. -/
def processCodeBlock (token : Token) : Line :=
  let language := pyOrStr token.info ""
  let code := pyRstripNl token.content
  [{ tag := "code_block", text := code, language := language }]

/-- The `while` loop of `_process_tokens` over the block token stream. -/
def processTokensAux (tokens : List Token) : Nat → Nat → Option (List Line)
  | _, 0 => none
  | i, fuel + 1 =>
    match tokens.get? i with
    | none => some []
    | some token =>
      if token.type = "heading_open" then
        match processHeading tokens i with
        | none => none
        | some r => (processTokensAux tokens r.1 fuel).map (fun rest => r.2 :: rest)
      else if token.type = "paragraph_open" then
        match processParagraph tokens i with
        | none => none
        | some r => (processTokensAux tokens r.1 fuel).map (fun rest => r.2 ++ rest)
      else if token.type = "bullet_list_open" then
        match processList tokens i false with
        | none => none
        | some r => (processTokensAux tokens r.1 fuel).map (fun rest => r.2 ++ rest)
      else if token.type = "ordered_list_open" then
        match processList tokens i true with
        | none => none
        | some r => (processTokensAux tokens r.1 fuel).map (fun rest => r.2 ++ rest)
      else if token.type = "fence" ∨ token.type = "code_block" then
        (processTokensAux tokens (i + 1) fuel).map (fun rest => processCodeBlock token :: rest)
      else if token.type = "hr" then
        (processTokensAux tokens (i + 1) fuel).map
          (fun rest => [({ tag := "hr" } : Elem)] :: rest)
      else
        processTokensAux tokens (i + 1) fuel

/-- Embeds `FeishuMarkdownConverter._process_tokens`: the full conversion of a
block token stream; `none` models an uncaught exception. -/
def processTokens (tokens : List Token) : Option (List Line) :=
  (processTokensAux tokens 0 (tokens.length + 1)).map
    (fun content => if content = [] then [[emptyTextElem]] else content)

/-! Convenience constructors for concrete token streams. -/

/-- A plain text inline leaf. -/
def tTok (s : String) : ITok := { type := "text", content := s }

/-- A soft line break inline leaf. -/
def sbTok : ITok := { type := "softbreak" }

/-- A hard line break inline leaf. -/
def hbTok : ITok := { type := "hardbreak" }

/-- A `strong_open` inline marker. -/
def strongOpen : ITok := { type := "strong_open" }

/-- A `strong_close` inline marker. -/
def strongClose : ITok := { type := "strong_close" }

/-- A heading-open block token with the given tag. -/
def hOpen (tag : String) : Token := { type := "heading_open", tag := tag }

/-- A heading-close block token. -/
def hClose : Token := { type := "heading_close" }

/-- An inline-container block token. -/
def inlineTok (cs : List ITok) : Token := { type := "inline", children := cs }

/-- A paragraph-open block token. -/
def pOpen : Token := { type := "paragraph_open" }

/-- A paragraph-close block token. -/
def pClose : Token := { type := "paragraph_close" }

/-- An ordered-list-open block token carrying attributes. -/
def olOpen (a : List (String × String)) : Token := { type := "ordered_list_open", attrs := a }

/-- An ordered-list-close block token. -/
def olClose : Token := { type := "ordered_list_close" }

/-- A bullet-list-open block token. -/
def blOpen : Token := { type := "bullet_list_open" }

/-- A list-item-open block token carrying an info string. -/
def liOpen (inf : String) : Token := { type := "list_item_open", info := inf }

/-- A list-item-close block token. -/
def liClose : Token := { type := "list_item_close" }

/-! Specification-side vocabulary used to state the claims. -/

/-- Concatenation, in order, of the literal content of the `text` and
`code_inline` leaves of a token list (the claims' wording for what a
styled span flattens to). -/
def leafConcat : List ITok → String
  | [] => ""
  | c :: rest =>
    (if c.type = "text" ∨ c.type = "code_inline" then c.content else "") ++ leafConcat rest

/-- Concatenation, in order, of the literal content of the `text` leaves of
a token list (the claims' wording for a link's display text). -/
def linkTextConcat : List ITok → String
  | [] => ""
  | c :: rest => (if c.type = "text" then c.content else "") ++ linkTextConcat rest

/-- Modelled from the spec: depth-counting search for the close token
matching an open token, per the data model's well-formed-nesting invariant
(section 3 of the spec); the converter itself has no such notion. -/
def specMatchingCloseAux (openType closeType : String) : List ITok → Nat → Nat → Option Nat
  | [], _, _ => none
  | c :: rest, depth, idx =>
    if c.type = closeType then
      if depth = 0 then some idx
      else specMatchingCloseAux openType closeType rest (depth - 1) (idx + 1)
    else if c.type = openType then
      specMatchingCloseAux openType closeType rest (depth + 1) (idx + 1)
    else
      specMatchingCloseAux openType closeType rest depth (idx + 1)

/-- Modelled from the spec: index of the close token matching the open
token at `start` in a children list. -/
def specMatchingClose (openType closeType : String) (children : List ITok) (start : Nat) :
    Option Nat :=
  specMatchingCloseAux openType closeType (children.drop (start + 1)) 0 (start + 1)

/-! Helper lemmas about the scanning loops. -/

theorem styledScan_stops (closeType : String) (xs ys : List ITok) (cTok : ITok)
    (hc : cTok.type = closeType) (hxs : ∀ a ∈ xs, a.type ≠ closeType) :
    styledScan closeType (xs ++ cTok :: ys) = (leafConcat xs, xs.length) := by
  induction xs with
  | nil => simp [styledScan, leafConcat, hc]
  | cons a rest ih =>
    have ha : a.type ≠ closeType := hxs a (by simp)
    have ihh := ih (fun b hb => hxs b (List.mem_cons_of_mem a hb))
    simp [styledScan, leafConcat, ha, ihh]

theorem styledScan_no_close (closeType : String) (xs : List ITok)
    (hxs : ∀ a ∈ xs, a.type ≠ closeType) :
    styledScan closeType xs = (leafConcat xs, xs.length) := by
  induction xs with
  | nil => simp [styledScan, leafConcat]
  | cons a rest ih =>
    have ha : a.type ≠ closeType := hxs a (by simp)
    have ihh := ih (fun b hb => hxs b (List.mem_cons_of_mem a hb))
    simp [styledScan, leafConcat, ha, ihh]

theorem linkScan_stops (xs ys : List ITok) (cTok : ITok)
    (hc : cTok.type = "link_close") (hxs : ∀ a ∈ xs, a.type ≠ "link_close") :
    linkScan (xs ++ cTok :: ys) = (linkTextConcat xs, xs.length) := by
  induction xs with
  | nil => simp [linkScan, linkTextConcat, hc]
  | cons a rest ih =>
    have ha : a.type ≠ "link_close" := hxs a (by simp)
    have ihh := ih (fun b hb => hxs b (List.mem_cons_of_mem a hb))
    simp [linkScan, linkTextConcat, ha, ihh]

theorem linkScan_no_close (xs : List ITok)
    (hxs : ∀ a ∈ xs, a.type ≠ "link_close") :
    linkScan xs = (linkTextConcat xs, xs.length) := by
  induction xs with
  | nil => simp [linkScan, linkTextConcat]
  | cons a rest ih =>
    have ha : a.type ≠ "link_close" := hxs a (by simp)
    have ihh := ih (fun b hb => hxs b (List.mem_cons_of_mem a hb))
    simp [linkScan, linkTextConcat, ha, ihh]

theorem pyOrStr_empty (a : String) : pyOrStr a "" = a := by
  unfold pyOrStr
  split
  · simp_all
  · rfl

theorem pyOrStrOpt_empty (o : Option String) : pyOrStrOpt o "" = o.getD "" := by
  cases o with
  | none => rfl
  | some s => simp [pyOrStrOpt, pyOrStr_empty]

theorem dropWhile_head_not {p : Char → Bool} :
    ∀ (l : List Char) (c : Char) (t : List Char), l.dropWhile p = c :: t → p c = false := by
  intro l
  induction l with
  | nil => intro c t h; exact absurd h (by simp)
  | cons a rest ih =>
    intro c t h
    by_cases hp : p a
    · rw [List.dropWhile_cons_of_pos hp] at h
      exact ih c t h
    · rw [List.dropWhile_cons_of_neg hp] at h
      cases h
      simpa using hp

theorem pyRstripNl_spec (s : String) :
    ∃ k : Nat, (pyRstripNl s).toList ++ List.replicate k '\x0a' = s.toList ∧
      (pyRstripNl s).toList.getLast? ≠ some '\x0a' := by
  have hlist : (pyRstripNl s).toList
      = (s.toList.reverse.dropWhile (fun c => c == '\x0a')).reverse := rfl
  obtain ⟨k, hk⟩ : ∃ k,
      s.toList.reverse.takeWhile (fun c => c == '\x0a') = List.replicate k '\x0a' := by
    refine ⟨(s.toList.reverse.takeWhile (fun c => c == '\x0a')).length, ?_⟩
    rw [List.eq_replicate_iff]
    exact ⟨rfl, fun b hb => by simpa using List.mem_takeWhile_imp hb⟩
  refine ⟨k, ?_, ?_⟩
  · rw [hlist]
    conv_rhs => rw [← List.reverse_reverse s.toList,
      ← List.takeWhile_append_dropWhile (fun c => c == '\x0a') s.toList.reverse]
    rw [List.reverse_append, hk, List.reverse_replicate]
  · rw [hlist]
    cases hd : s.toList.reverse.dropWhile (fun c => c == '\x0a') with
    | nil => simp
    | cons c t =>
      have hc := dropWhile_head_not _ c t hd
      simp only [List.reverse_cons]
      rw [List.getLast?_concat]
      intro hcontra
      have hce : c = '\x0a' := by injection hcontra
      rw [hce] at hc
      simp at hc

/-! The claims. -/

/-- C2: a paragraph whose inline content is the text "A", a break (a text
element whose content is exactly a newline), then the text "B" yields
exactly two lines, the first ending in "A", the second beginning with "B",
and no element of any returned line contains a literal newline. -/
theorem c2_paragraph_break_split :
    processTokens [pOpen, inlineTok [tTok "A", sbTok, tTok "B"], pClose] =
      some [[{ tag := "text", text := "A" }], [{ tag := "text", text := "B" }]] ∧
    ([[({ tag := "text", text := "A" } : Elem)],
      [({ tag := "text", text := "B" } : Elem)]].all
        (fun l => l.all (fun e => ! e.text.toList.contains '\x0a'))) = true := by
  decide

/-- C4: whenever the conversion returns (does not raise), the returned line
list is non-empty; in particular the empty token stream yields exactly one
line holding one empty text element. -/
theorem c4_nonempty_output :
    (∀ (tokens : List Token) (content : List Line),
        processTokens tokens = some content → content ≠ []) ∧
    processTokens [] = some [[emptyTextElem]] := by
  constructor
  · intro tokens content h
    unfold processTokens at h
    cases haux : processTokensAux tokens 0 (tokens.length + 1) with
    | none => rw [haux] at h; cases h
    | some c =>
      rw [haux] at h
      simp only [Option.map_some'] at h
      have hcontent := Option.some.inj h
      by_cases hc : c = []
      · rw [hc] at hcontent
        simp at hcontent
        rw [← hcontent]
        simp
      · rw [if_neg hc] at hcontent
        rw [← hcontent]
        exact hc
  · rfl

/-- Witness for C4 at the empty token stream. -/
theorem c4_nonempty_output_witness : ([[emptyTextElem]] : List Line) ≠ [] :=
  c4_nonempty_output.1 [] [[emptyTextElem]] c4_nonempty_output.2

/-- C6: an ordered list with three items yields prefixes "1. ", "2. ",
"3. " in document order, whatever numbering hints (attributes or info
strings) the source tokens carry. -/
theorem c6_ordered_list_numbering (a : List (String × String)) (i1 i2 i3 : String)
    (s1 s2 s3 : String) :
    processTokens
      [olOpen a, liOpen i1, pOpen, inlineTok [tTok s1], pClose, liClose,
       liOpen i2, pOpen, inlineTok [tTok s2], pClose, liClose,
       liOpen i3, pOpen, inlineTok [tTok s3], pClose, liClose, olClose] =
      some [[{ tag := "text", text := "1. " ++ s1 }],
            [{ tag := "text", text := "2. " ++ s2 }],
            [{ tag := "text", text := "3. " ++ s3 }]] := by
  rfl

/-- C8 counterexample: on the malformed stream consisting of one lone
heading-open token the conversion raises an uncaught out-of-range error
(modelled as `none`); no `MalformedInput` result error exists in the code. -/
theorem c8_counterexample : processTokens [hOpen "h1"] = none := by decide

/-- C8 (amended): a malformed stream whose block-open token is not followed
by the expected inline container makes the conversion abort with an
uncaught out-of-range error (modelled as `none`); it neither returns a
`MalformedInput` result error nor silently returns partial output. -/
theorem c8_malformed_crash :
    processTokens [pOpen] = none ∧
    processTokens [blOpen, liOpen "", pOpen] = none := by decide

/-- C10: breaks inside a heading are not re-flowed: the heading handler
returns a single line in which each break is a distinct text element whose
text is exactly a newline, additionally styled bold, so a heading line can
contain elements with a literal newline character. -/
theorem c10_heading_break_single_line (s t u : String) :
    processTokens [hOpen "h2", inlineTok [tTok s, sbTok, tTok t, hbTok, tTok u], hClose] =
      some [[{ tag := "text", text := s, style := some ["bold"] },
             { tag := "text", text := "\x0a", style := some ["bold"] },
             { tag := "text", text := t, style := some ["bold"] },
             { tag := "text", text := "\x0a", style := some ["bold"] },
             { tag := "text", text := u, style := some ["bold"] }]] := by
  rfl

/-- C1 counterexample: a level-1 heading whose content is already bold
yields a text element whose style list holds "bold" twice, so the style
set of a heading element is not duplicate-free as claimed. -/
theorem c1_counterexample :
    processTokens [hOpen "h1", inlineTok [strongOpen, tTok "x", strongClose], hClose] =
      some [[{ tag := "text", text := "x", style := some ["bold", "bold"] }]] ∧
    ¬ (["bold", "bold"] : List String).Nodup := by
  decide

/-- C5 counterexample: a fence whose content ends in two newlines has both
stripped, not the single one the claim allows; the claim predicts the text
"x=1" followed by one newline. -/
theorem c5_counterexample :
    processCodeBlock { type := "fence", content := "x=1\x0a\x0a", info := "python" } =
      [{ tag := "code_block", text := "x=1", language := "python" }] ∧
    ("x=1" : String) ≠ "x=1\x0a" := by
  decide

/-- C3 counterexample: on a strong span nested directly inside a strong
span, the sub-walker stops at the first same-type close marker, not the
matching one: the element text omits leaves before the matching close and
the resume index is not just past it. -/
theorem c3_counterexample :
    specMatchingClose "strong_open" "strong_close"
      [strongOpen, strongOpen, tTok "a", strongClose, tTok "b", strongClose] 0 = some 5 ∧
    leafConcat
      (([strongOpen, strongOpen, tTok "a", strongClose, tTok "b", strongClose].drop 1).take 4) =
      "ab" ∧
    processStyled [strongOpen, strongOpen, tTok "a", strongClose, tTok "b", strongClose] 0
      "strong" ["bold"] =
      (4, { tag := "text", text := "a", style := some ["bold"] }) := by
  decide

/-- C7 counterexample: a link containing one empty text leaf: the claim
predicts the display text equal to the (empty) leaf concatenation, but the
code falls back to the href. -/
theorem c7_counterexample :
    processLink [{ type := "link_open", attrs := [("href", "http://x")] },
                 { type := "text", content := "" },
                 { type := "link_close" }] 0 =
      some (3, { tag := "a", text := "http://x", href := "http://x" }) ∧
    linkTextConcat [({ type := "text", content := "" } : ITok)] = "" ∧
    ("http://x" : String) ≠ "" := by
  decide

/-- C1 (amended): every text element of the single line returned by the
heading handler carries "bold" in its style list (the handler appends it
unconditionally); the style list is however not duplicate-free: content
that was already bold ends up with two "bold" entries. -/
theorem c1_heading_bold (tokens : List Token) (start next : Nat) (line : Line)
    (h : processHeading tokens start = some (next, line)) :
    ∀ e ∈ line, e.tag = "text" → "bold" ∈ e.style.getD [] := by
  intro e he htag
  unfold processHeading at h
  split at h
  · exact absurd h (by simp)
  · split at h
    · exact absurd h (by simp)
    · split at h
      · exact absurd h (by simp)
      · rename_i it heq
        have hp := Option.some.inj h
        have hline : (processInline it).map boldify = line := congrArg Prod.snd hp
        rw [← hline] at he
        obtain ⟨a, ha, rfl⟩ := List.mem_map.1 he
        unfold boldify at htag ⊢
        by_cases hat : a.tag = "text"
        · rw [if_pos hat]
          simp
        · rw [if_neg hat] at htag
          exact absurd htag hat

/-- Witness for C1 (amended) at a heading containing one plain text leaf. -/
theorem c1_heading_bold_witness :
    "bold" ∈ (({ tag := "text", text := "x", style := some ["bold"] } : Elem)).style.getD [] :=
  c1_heading_bold [hOpen "h1", inlineTok [tTok "x"], hClose] 0 3
    [{ tag := "text", text := "x", style := some ["bold"] }] (by decide)
    { tag := "text", text := "x", style := some ["bold"] } (by simp) rfl

/-- C3 (amended): the styled-span sub-walker returns one text element whose
text is the concatenation of the literal content of the text and code-span
leaves strictly between the open token and the FIRST close token of the
same kind after it (nested same-kind spans therefore cut the scan short),
whose style is exactly the style list passed for the span, and whose
resume index is just past that first close token. -/
theorem c3_styled_flatten (children : List ITok) (start : Nat) (tagType : String)
    (styles : List String) (xs ys : List ITok) (cTok : ITok)
    (hdrop : children.drop (start + 1) = xs ++ cTok :: ys)
    (hc : cTok.type = tagType ++ "_close")
    (hxs : ∀ a ∈ xs, a.type ≠ tagType ++ "_close") :
    processStyled children start tagType styles =
      (start + xs.length + 2,
        { tag := "text", text := leafConcat xs, style := some styles }) := by
  simp only [processStyled]
  rw [hdrop, styledScan_stops (tagType ++ "_close") xs ys cTok hc hxs]
  have harith : start + 1 + xs.length + 1 = start + xs.length + 2 := by omega
  simp only [harith]

/-- Witness for C3 (amended) at a well-formed singleton strong span. -/
theorem c3_styled_flatten_witness :
    processStyled [strongOpen, tTok "a", strongClose] 0 "strong" ["bold"] =
      (3, { tag := "text", text := "a", style := some ["bold"] }) := by
  have h := c3_styled_flatten [strongOpen, tTok "a", strongClose] 0 "strong" ["bold"]
    [tTok "a"] [] strongClose (by decide) (by decide) (by decide)
  simpa [leafConcat, tTok] using h

/-- C5 (amended): the code-block handler yields one line with one
code-block element whose text is the token content with ALL trailing
newlines stripped (and nothing else removed) and whose language is the
token info string. -/
theorem c5_code_block_strip (token : Token) :
    ∃ (k : Nat) (txt : String),
      processCodeBlock token = [{ tag := "code_block", text := txt, language := token.info }] ∧
      txt.toList ++ List.replicate k '\x0a' = token.content.toList ∧
      txt.toList.getLast? ≠ some '\x0a' := by
  obtain ⟨k, h1, h2⟩ := pyRstripNl_spec token.content
  refine ⟨k, pyRstripNl token.content, ?_, h1, h2⟩
  simp only [processCodeBlock, pyOrStr_empty]

/-- C7 (amended): the link sub-walker emits one link element whose href is
the open token's href attribute (empty string when absent) and whose text
is the concatenation of the contents of the text leaves strictly before
the first link-close token, falling back to the href whenever that
concatenation is EMPTY (also when empty text leaves are present); the
resume index is just past that close token. -/
theorem c7_link_text (children : List ITok) (start : Nat) (lo : ITok)
    (xs ys : List ITok) (cTok : ITok)
    (hlo : children.get? start = some lo)
    (hdrop : children.drop (start + 1) = xs ++ cTok :: ys)
    (hc : cTok.type = "link_close")
    (hxs : ∀ a ∈ xs, a.type ≠ "link_close") :
    processLink children start =
      some (start + xs.length + 2,
        { tag := "a",
          text := if linkTextConcat xs = "" then (attrGet lo "href").getD ""
                  else linkTextConcat xs,
          href := (attrGet lo "href").getD "" }) := by
  simp only [processLink, hlo, Option.map_some']
  simp only [processLinkCore, pyOrStrOpt_empty]
  rw [hdrop, linkScan_stops xs ys cTok hc hxs]
  have harith : start + 1 + xs.length + 1 = start + xs.length + 2 := by omega
  simp only [harith, pyOrStr]

/-- Witness for C7 (amended) at a link with one non-empty text leaf. -/
theorem c7_link_text_witness :
    processLink [{ type := "link_open", attrs := [("href", "http://x")] },
                 tTok "hi", { type := "link_close" }] 0 =
      some (3, { tag := "a", text := "hi", href := "http://x" }) := by
  have h := c7_link_text
    [{ type := "link_open", attrs := [("href", "http://x")] },
     tTok "hi", { type := "link_close" }] 0
    { type := "link_open", attrs := [("href", "http://x")] }
    [tTok "hi"] [] { type := "link_close" }
    (by decide) (by decide) (by decide) (by decide)
  simpa [linkTextConcat, tTok, attrGet] using h

/-- C9: when a styled-span open or link open has no matching close after
it, the bounds-checked scans stop at the end of the children list, a
well-formed element is still returned, and the resume index is the list
length plus one (so the inline walker's cursor moves past the end and its
loop terminates). -/
theorem c9_unmatched_walkers (children : List ITok) (start : Nat) (tagType : String)
    (styles : List String) (lo : ITok) (hstart : start < children.length) :
    ((∀ a ∈ children.drop (start + 1), a.type ≠ tagType ++ "_close") →
      processStyled children start tagType styles =
        (children.length + 1,
          { tag := "text", text := leafConcat (children.drop (start + 1)),
            style := some styles })) ∧
    (children.get? start = some lo →
      (∀ a ∈ children.drop (start + 1), a.type ≠ "link_close") →
      ∃ e : Elem, processLink children start = some (children.length + 1, e) ∧ e.tag = "a") := by
  have hlen : (children.drop (start + 1)).length = children.length - (start + 1) :=
    List.length_drop _ _
  have harith : start + 1 + (children.drop (start + 1)).length + 1 = children.length + 1 := by
    rw [hlen]; omega
  constructor
  · intro hno
    simp only [processStyled]
    rw [styledScan_no_close _ _ hno]
    simp only [harith]
  · intro hlo hno
    refine ⟨{ tag := "a",
              text := pyOrStr (linkTextConcat (children.drop (start + 1)))
                        (pyOrStrOpt (attrGet lo "href") ""),
              href := pyOrStrOpt (attrGet lo "href") "" }, ?_, rfl⟩
    simp only [processLink, hlo, Option.map_some', processLinkCore]
    rw [linkScan_no_close _ hno]
    simp only [harith]

/-- Witness for C9 at an unclosed strong span and an unclosed link over the
same two-token children list. -/
theorem c9_unmatched_walkers_witness :
    processStyled [{ type := "link_open", attrs := [("href", "h")] }, tTok "x"] 0
      "strong" ["bold"] = (3, { tag := "text", text := "x", style := some ["bold"] }) ∧
    ∃ e : Elem,
      processLink [{ type := "link_open", attrs := [("href", "h")] }, tTok "x"] 0 =
        some (3, e) ∧ e.tag = "a" := by
  have h := c9_unmatched_walkers [{ type := "link_open", attrs := [("href", "h")] }, tTok "x"]
    0 "strong" ["bold"] { type := "link_open", attrs := [("href", "h")] } (by decide)
  constructor
  · have h1 := h.1 (by decide)
    simpa [leafConcat, tTok] using h1
  · exact h.2 (by decide) (by decide)

end Nanobot
